import Mathlib

set_option autoImplicit false

/-!
Shallow embedding of the phone-number voucher allocation system
(`voucher_system.py`, `voucher_postgres.py`).

Timestamps are modelled as integers (seconds); `now` is the instant at which
an order is processed.  The two hard-coded windows of the source
(`timedelta(days=30)` for reuse, `timedelta(days=3)` for freshness) become
integer cutoffs.  SQL result ordering is unspecified; the embedding fixes the
scan order of the underlying lists, which no claim depends on.
-/

namespace Voucher

/-- Seconds in a day (`datetime.timedelta(days=1)`). -/
def secondsPerDay : Int := 86400

/-- `cutoff_date = now - timedelta(days=30)`: sales at or after this instant
block reuse (`voucher_system.py` line 124, `cutoff_days = 30` in
`voucher_postgres.py` line 144). -/
def reuse_cutoff (now : Int) : Int := now - 30 * secondsPerDay

/-- `data_freshness_date = now - timedelta(days=3)`: pool rows imported at or
after this instant are fresh (`voucher_system.py` line 127,
`freshness_days = 3` in `voucher_postgres.py` line 145). -/
def freshness_cutoff (now : Int) : Int := now - 3 * secondsPerDay

/-- A row of the `raw_pool` table. -/
structure PoolRecord where
  phone_number : String
  provider : String
  url_source : String
  imported_at : Int
  file_source : String
deriving DecidableEq, Repr

/-- A row of the `sales_history` table. -/
structure SaleRecord where
  phone_number : String
  customer_name : String
  sold_at : Int
deriving DecidableEq, Repr

/-- One element of the `requirements` list handed to order processing. -/
structure Requirement where
  provider : String
  qty : Nat
deriving DecidableEq, Repr

/-- Row constructor for the `INSERT INTO sales_history` step. -/
def mkSale (phone customer : String) (now : Int) : SaleRecord :=
  ⟨phone, customer, now⟩

/-- The blacklist subquery
`SELECT s.phone_number FROM sales_history s WHERE s.sold_at >= cutoff`. -/
def soldSince (sales : List SaleRecord) (cutoff : Int) : List String :=
  (sales.filter (fun s => decide (cutoff ≤ s.sold_at))).map (fun s => s.phone_number)

/-- The candidate rows
`SELECT r.phone_number FROM raw_pool r WHERE r.provider = ? AND r.imported_at >= ?`
(one output row per matching pool row, duplicates preserved). -/
def freshPoolIds (pool : List PoolRecord) (prov : String) (freshCut : Int) : List String :=
  (pool.filter (fun r => decide (r.provider = prov) && decide (freshCut ≤ r.imported_at))).map
    (fun r => r.phone_number)

/-- The anti-join: candidate rows whose phone number is absent from the
blacklist (`NOT IN` in sqlite, `LEFT JOIN … WHERE b.phone_number IS NULL` in
Postgres).  Duplicate candidate rows are still preserved here. -/
def antiJoin (pool : List PoolRecord) (sales : List SaleRecord) (prov : String)
    (freshCut reuseCut : Int) : List String :=
  (freshPoolIds pool prov freshCut).filter
    (fun p => decide (¬ p ∈ soldSince sales reuseCut))

/-- The full sqlite query of `process_order` minus its `LIMIT`:
anti-join plus `GROUP BY r.phone_number` (deduplication). -/
def candidate_pool (pool : List PoolRecord) (sales : List SaleRecord) (prov : String)
    (freshCut reuseCut : Int) : List String :=
  (antiJoin pool sales prov freshCut reuseCut).dedup

/-- The sqlite query of `process_order` (lines 140-152): anti-join,
`GROUP BY r.phone_number`, `LIMIT qty`. -/
def anti_join_sqlite (pool : List PoolRecord) (sales : List SaleRecord) (prov : String)
    (freshCut reuseCut : Int) (qty : Nat) : List String :=
  (candidate_pool pool sales prov freshCut reuseCut).take qty

/-- The Postgres query of `process_order_postgres` (lines 158-175):
`Candidates` CTE (no dedup), left anti-join against `Blacklist`, `LIMIT qty`.
Unlike the sqlite query there is no `GROUP BY`/`DISTINCT`. -/
def anti_join_postgres (pool : List PoolRecord) (sales : List SaleRecord) (prov : String)
    (freshCut reuseCut : Int) (qty : Nat) : List String :=
  (antiJoin pool sales prov freshCut reuseCut).take qty

/-- Python-dict insertion `results[provider] = found`: update in place if the
key exists, else append. -/
def dictInsert (d : List (String × List String)) (k : String) (v : List String) :
    List (String × List String) :=
  if d.any (fun kv => kv.1 = k) then
    d.map (fun kv => if kv.1 = k then (k, v) else kv)
  else d ++ [(k, v)]

/-- Python-dict lookup `results.get(provider)`. -/
def dictGet (d : List (String × List String)) (k : String) : Option (List String) :=
  (d.find? (fun kv => kv.1 = k)).map (fun kv => kv.2)

/-- The requirement loop of `process_order` (`voucher_system.py` lines
131-168): for each requirement, run the anti-join query, and when it found
anything, append the sale rows to `sales_history` (visible to the later
requirements of the same order) and set `results[provider] = found_numbers`. -/
def orderLoop (pool : List PoolRecord) (customer : String) (now : Int) :
    List Requirement → List SaleRecord → List (String × List String) →
    List SaleRecord × List (String × List String)
  | [], sales, results => (sales, results)
  | req :: rest, sales, results =>
    let found := anti_join_sqlite pool sales req.provider
      (freshness_cutoff now) (reuse_cutoff now) req.qty
    if found = [] then
      orderLoop pool customer now rest sales results
    else
      orderLoop pool customer now rest
        (sales ++ found.map (fun n => mkSale n customer now))
        (dictInsert results req.provider found)

/-- `process_order(customer_name, requirements)` (`voucher_system.py` lines
111-172), started on pool state `pool` and ledger state `sales0`; returns the
committed ledger and the `results` dict. -/
def process_order (pool : List PoolRecord) (sales0 : List SaleRecord) (customer : String)
    (reqs : List Requirement) (now : Int) :
    List SaleRecord × List (String × List String) :=
  orderLoop pool customer now reqs sales0 []

/-- The per-requirement `found_numbers` lists of `process_order`, in
requirement order (the loop of lines 131-168 viewed as a trace). -/
def orderFounds (pool : List PoolRecord) (customer : String) (now : Int) :
    List Requirement → List SaleRecord → List (List String)
  | [], _ => []
  | req :: rest, sales =>
    let found := anti_join_sqlite pool sales req.provider
      (freshness_cutoff now) (reuse_cutoff now) req.qty
    found :: orderFounds pool customer now rest
      (if found = [] then sales else sales ++ found.map (fun n => mkSale n customer now))

/-- The ledger state of `process_order` just before requirement number `k`
is processed (`k = 0`: the initial ledger). -/
def salesAt (pool : List PoolRecord) (customer : String) (now : Int) :
    List Requirement → List SaleRecord → Nat → List SaleRecord
  | _, sales, 0 => sales
  | [], sales, _ + 1 => sales
  | req :: rest, sales, k + 1 =>
    let found := anti_join_sqlite pool sales req.provider
      (freshness_cutoff now) (reuse_cutoff now) req.qty
    salesAt pool customer now rest
      (if found = [] then sales else sales ++ found.map (fun n => mkSale n customer now)) k

/-- The requirement loop of `process_order_postgres` (`voucher_postgres.py`
lines 149-195): same shape as the sqlite loop, but the query keeps duplicate
candidate rows (no `GROUP BY`). -/
def orderLoopPg (pool : List PoolRecord) (customer : String) (now : Int) :
    List Requirement → List SaleRecord → List (String × List String) →
    List SaleRecord × List (String × List String)
  | [], sales, results => (sales, results)
  | req :: rest, sales, results =>
    let found := anti_join_postgres pool sales req.provider
      (freshness_cutoff now) (reuse_cutoff now) req.qty
    if found = [] then
      orderLoopPg pool customer now rest sales results
    else
      orderLoopPg pool customer now rest
        (sales ++ found.map (fun n => mkSale n customer now))
        (dictInsert results req.provider found)

/-- The per-requirement `found_numbers` lists of `process_order_postgres`. -/
def orderFoundsPg (pool : List PoolRecord) (customer : String) (now : Int) :
    List Requirement → List SaleRecord → List (List String)
  | [], _ => []
  | req :: rest, sales =>
    let found := anti_join_postgres pool sales req.provider
      (freshness_cutoff now) (reuse_cutoff now) req.qty
    found :: orderFoundsPg pool customer now rest
      (if found = [] then sales else sales ++ found.map (fun n => mkSale n customer now))

/-- `process_order_postgres(customer_name, requirements)` (`voucher_postgres.py`
lines 133-206) with an explicit failure point.  `failAfter = none` models the
run in which the `try` block completes and `conn.commit()` succeeds.
`failAfter = some k` models an exception raised once `k` requirements have
been processed: the `except` branch runs `conn.rollback()` (the ledger reverts
to `sales0`) and the function falls through to `return results`, returning the
entries accumulated in the Python dict before the failure. -/
def process_order_postgres (pool : List PoolRecord) (sales0 : List SaleRecord)
    (customer : String) (reqs : List Requirement) (now : Int) (failAfter : Option Nat) :
    List SaleRecord × List (String × List String) :=
  match failAfter with
  | none => orderLoopPg pool customer now reqs sales0 []
  | some k => (sales0, (orderLoopPg pool customer now (reqs.take k) sales0 []).2)

/-- Two order transactions racing on the same ledger snapshot: both run their
anti-join `SELECT` before either one's `INSERT`/`COMMIT` is visible to the
other.  Nothing in `process_order` / `process_order_postgres` orders the
SELECT of one call after the INSERT of the other (no row locks, no
serializable isolation, no conditional reservation), so this interleaving is
reachable.  Returns both allocations and the ledger after both commits. -/
def race_two_orders (pool : List PoolRecord) (sales0 : List SaleRecord)
    (c1 c2 : String) (r1 r2 : Requirement) (now : Int) :
    List String × List String × List SaleRecord :=
  let f1 := anti_join_sqlite pool sales0 r1.provider
    (freshness_cutoff now) (reuse_cutoff now) r1.qty
  let f2 := anti_join_sqlite pool sales0 r2.provider
    (freshness_cutoff now) (reuse_cutoff now) r2.qty
  (f1, f2, sales0 ++ f1.map (fun n => mkSale n c1 now) ++ f2.map (fun n => mkSale n c2 now))

/-- Canonical partition name for a day key (`raw_pool_y…m…d…` in
`init_db_partitions`; the year/month/day formatting is abstracted to a single
day key). -/
def partName (day : Nat) : String := "raw_pool_d" ++ toString day

/-- The loop body of `init_db_partitions` over a list of day offsets: for each
day, check existence (`to_regclass`) and create the partition only when absent.
The state is (existing partitions, partitions created by this call). -/
def ensureLoop (base : Nat) (days : List Nat) (st : List String × List String) :
    List String × List String :=
  days.foldl
    (fun st i =>
      let name := partName (base + i)
      if name ∈ st.1 then st else (st.1 ++ [name], st.2 ++ [name]))
    st

/-- `init_db_partitions()` (`voucher_postgres.py` lines 46-81): ensure the
partitions for `base_date + 0 … base_date + 3` exist, creating the missing
ones.  Returns the new partition set and the list of partitions created. -/
def init_db_partitions (base : Nat) (parts : List String) : List String × List String :=
  ensureLoop base (List.range 4) (parts, [])

/-! ## Membership characterizations of the queries -/

theorem mem_soldSince {sales : List SaleRecord} {cutoff : Int} {x : String} :
    x ∈ soldSince sales cutoff ↔ ∃ s ∈ sales, s.phone_number = x ∧ cutoff ≤ s.sold_at := by
  simp only [soldSince, List.mem_map, List.mem_filter, decide_eq_true_eq]
  tauto

theorem mem_freshPoolIds {pool : List PoolRecord} {prov x : String} {fc : Int} :
    x ∈ freshPoolIds pool prov fc ↔
      ∃ r ∈ pool, r.phone_number = x ∧ r.provider = prov ∧ fc ≤ r.imported_at := by
  simp only [freshPoolIds, List.mem_map, List.mem_filter, Bool.and_eq_true, decide_eq_true_eq]
  tauto

theorem mem_antiJoin {pool : List PoolRecord} {sales : List SaleRecord} {prov x : String}
    {fc rc : Int} :
    x ∈ antiJoin pool sales prov fc rc ↔
      (∃ r ∈ pool, r.phone_number = x ∧ r.provider = prov ∧ fc ≤ r.imported_at) ∧
        ¬ ∃ s ∈ sales, s.phone_number = x ∧ rc ≤ s.sold_at := by
  simp only [antiJoin, List.mem_filter, decide_eq_true_eq, mem_freshPoolIds, mem_soldSince]

theorem mem_candidate_pool {pool : List PoolRecord} {sales : List SaleRecord} {prov x : String}
    {fc rc : Int} :
    x ∈ candidate_pool pool sales prov fc rc ↔
      (∃ r ∈ pool, r.phone_number = x ∧ r.provider = prov ∧ fc ≤ r.imported_at) ∧
        ¬ ∃ s ∈ sales, s.phone_number = x ∧ rc ≤ s.sold_at := by
  rw [candidate_pool, List.mem_dedup, mem_antiJoin]

theorem reuse_cutoff_le (now : Int) : reuse_cutoff now ≤ now := by
  simp only [reuse_cutoff, secondsPerDay]
  omega

/-- An identifier that carries a sale record stamped `now` is excluded from
the anti-join (its sale lies inside the reuse window). -/
theorem sold_now_not_mem_antiJoin {pool : List PoolRecord} {sales : List SaleRecord}
    {x c : String} {now : Int} (hs : mkSale x c now ∈ sales) (prov : String) (fc : Int) :
    x ∉ antiJoin pool sales prov fc (reuse_cutoff now) := by
  rw [mem_antiJoin]
  rintro ⟨-, hno⟩
  exact hno ⟨mkSale x c now, hs, rfl, reuse_cutoff_le now⟩

/-! ## Concrete fixtures used by closed theorems and witnesses -/

/-- A pool holding a single fresh `tsel` identifier. -/
def pool_one_tsel : List PoolRecord := [⟨"0812a", "tsel", "game_a.com", 0, "f.csv"⟩]

/-- A pool holding the same `tsel` identifier ingested twice (duplicate
`raw_pool` rows, as permitted by ingestion). -/
def pool_dup_tsel : List PoolRecord :=
  [⟨"0812a", "tsel", "game_a.com", 0, "f.csv"⟩, ⟨"0812a", "tsel", "slot_b.com", 0, "g.csv"⟩]

/-- A pool holding exactly ten distinct fresh `tsel` identifiers. -/
def pool_ten_tsel : List PoolRecord :=
  [⟨"0812a0", "tsel", "u", 0, "f"⟩, ⟨"0812a1", "tsel", "u", 0, "f"⟩,
   ⟨"0812a2", "tsel", "u", 0, "f"⟩, ⟨"0812a3", "tsel", "u", 0, "f"⟩,
   ⟨"0812a4", "tsel", "u", 0, "f"⟩, ⟨"0812a5", "tsel", "u", 0, "f"⟩,
   ⟨"0812a6", "tsel", "u", 0, "f"⟩, ⟨"0812a7", "tsel", "u", 0, "f"⟩,
   ⟨"0812a8", "tsel", "u", 0, "f"⟩, ⟨"0812a9", "tsel", "u", 0, "f"⟩]

/-- A pool holding two distinct fresh `tsel` identifiers. -/
def pool_two_tsel : List PoolRecord :=
  [⟨"0812a", "tsel", "u", 0, "f"⟩, ⟨"0812b", "tsel", "u", 0, "f"⟩]

/-! ## Structural lemmas about the order loops and the results dict -/

theorem find?_map_update_of_ne (d : List (String × List String)) (k k' : String)
    (v : List String) (h : k' ≠ k) :
    (d.map (fun kv => if kv.1 = k then (k, v) else kv)).find? (fun kv => kv.1 = k') =
      d.find? (fun kv => kv.1 = k') := by
  induction d with
  | nil => rfl
  | cons kv rest ih =>
    by_cases hk : kv.1 = k
    · rw [List.map_cons, if_pos hk,
        List.find?_cons_of_neg _ (by intro hh; simp at hh; exact h hh.symm),
        List.find?_cons_of_neg _ (by intro hh; simp [hk] at hh; exact h hh.symm), ih]
    · by_cases hk' : kv.1 = k'
      · rw [List.map_cons, if_neg hk, List.find?_cons_of_pos _ (by simp [hk']),
          List.find?_cons_of_pos _ (by simp [hk'])]
      · rw [List.map_cons, if_neg hk, List.find?_cons_of_neg _ (by simp [hk']),
          List.find?_cons_of_neg _ (by simp [hk']), ih]

theorem find?_map_update_self (d : List (String × List String)) (k : String)
    (v : List String) (h : d.any (fun kv => kv.1 = k)) :
    (d.map (fun kv => if kv.1 = k then (k, v) else kv)).find? (fun kv => kv.1 = k) =
      some (k, v) := by
  induction d with
  | nil => cases h
  | cons kv rest ih =>
    by_cases hk : kv.1 = k
    · rw [List.map_cons, if_pos hk, List.find?_cons_of_pos _ (by simp)]
    · have hrest : rest.any (fun kv => kv.1 = k) := by
        rcases List.any_eq_true.mp h with ⟨x, hx, hpx⟩
        rcases List.mem_cons.mp hx with rfl | hx'
        · exact absurd (of_decide_eq_true hpx) hk
        · exact List.any_eq_true.mpr ⟨x, hx', hpx⟩
      rw [List.map_cons, if_neg hk, List.find?_cons_of_neg _ (by simp [hk]), ih hrest]

theorem dictGet_dictInsert (d : List (String × List String)) (k k' : String)
    (v : List String) :
    dictGet (dictInsert d k v) k' = if k' = k then some v else dictGet d k' := by
  by_cases hany : d.any (fun kv => kv.1 = k)
  · rw [dictInsert, if_pos hany]
    by_cases h : k' = k
    · subst h
      rw [if_pos rfl, dictGet, find?_map_update_self d k' v hany]
      rfl
    · rw [if_neg h, dictGet, dictGet, find?_map_update_of_ne d k k' v h]
  · rw [dictInsert, if_neg hany]
    have hnone : d.find? (fun kv => decide (kv.1 = k)) = none :=
      List.find?_eq_none.mpr fun x hx => by
        simpa using List.any_eq_false.mp (Bool.of_not_eq_true hany) x hx
    by_cases h : k' = k
    · subst h
      rw [if_pos rfl, dictGet, List.find?_append, hnone]
      simp
    · rw [if_neg h, dictGet, dictGet, List.find?_append]
      have hlast : ([(k, v)] : List (String × List String)).find?
          (fun kv => decide (kv.1 = k')) = none := by
        simp only [List.find?_singleton]
        rw [if_neg (by intro hh; simp at hh; exact h hh.symm)]
      rw [hlast, Option.or_none]

theorem orderLoop_cons (pool : List PoolRecord) (c : String) (now : Int) (req : Requirement)
    (rest : List Requirement) (sales : List SaleRecord) (results : List (String × List String)) :
    orderLoop pool c now (req :: rest) sales results =
      if anti_join_sqlite pool sales req.provider
          (freshness_cutoff now) (reuse_cutoff now) req.qty = [] then
        orderLoop pool c now rest sales results
      else
        orderLoop pool c now rest
          (sales ++ (anti_join_sqlite pool sales req.provider
            (freshness_cutoff now) (reuse_cutoff now) req.qty).map (fun n => mkSale n c now))
          (dictInsert results req.provider (anti_join_sqlite pool sales req.provider
            (freshness_cutoff now) (reuse_cutoff now) req.qty)) := rfl

theorem orderLoop_append (pool : List PoolRecord) (c : String) (now : Int)
    (l1 l2 : List Requirement) (sales : List SaleRecord)
    (results : List (String × List String)) :
    orderLoop pool c now (l1 ++ l2) sales results =
      orderLoop pool c now l2 (orderLoop pool c now l1 sales results).1
        (orderLoop pool c now l1 sales results).2 := by
  induction l1 generalizing sales results with
  | nil => rfl
  | cons req rest ih =>
    rw [List.cons_append, orderLoop_cons, orderLoop_cons]
    split
    · exact ih _ _
    · exact ih _ _

theorem orderLoop_sales_mono (pool : List PoolRecord) (c : String) (now : Int)
    (reqs : List Requirement) :
    ∀ (sales : List SaleRecord) (results : List (String × List String)) {s : SaleRecord},
      s ∈ sales → s ∈ (orderLoop pool c now reqs sales results).1 := by
  induction reqs with
  | nil => intro sales results s hs; exact hs
  | cons req rest ih =>
    intro sales results s hs
    rw [orderLoop_cons]
    split
    · exact ih _ _ hs
    · exact ih _ _ (List.mem_append_left _ hs)

theorem dictGet_orderLoop_of_not_mem (pool : List PoolRecord) (c : String) (now : Int)
    (reqs : List Requirement) (p : String)
    (hp : p ∉ reqs.map Requirement.provider) :
    ∀ (sales : List SaleRecord) (results : List (String × List String)),
      dictGet (orderLoop pool c now reqs sales results).2 p = dictGet results p := by
  induction reqs with
  | nil => exact fun _ _ => rfl
  | cons req rest ih =>
    have hp1 : p ≠ req.provider := fun h => hp (by simp [h])
    have hp2 : p ∉ rest.map Requirement.provider := fun h => hp (by simp; right; simpa using h)
    intro sales results
    rw [orderLoop_cons]
    split
    · exact ih hp2 _ _
    · rw [ih hp2, dictGet_dictInsert, if_neg hp1]

theorem orderLoopPg_cons (pool : List PoolRecord) (c : String) (now : Int) (req : Requirement)
    (rest : List Requirement) (sales : List SaleRecord) (results : List (String × List String)) :
    orderLoopPg pool c now (req :: rest) sales results =
      if anti_join_postgres pool sales req.provider
          (freshness_cutoff now) (reuse_cutoff now) req.qty = [] then
        orderLoopPg pool c now rest sales results
      else
        orderLoopPg pool c now rest
          (sales ++ (anti_join_postgres pool sales req.provider
            (freshness_cutoff now) (reuse_cutoff now) req.qty).map (fun n => mkSale n c now))
          (dictInsert results req.provider (anti_join_postgres pool sales req.provider
            (freshness_cutoff now) (reuse_cutoff now) req.qty)) := rfl

theorem orderLoopPg_sales_mono (pool : List PoolRecord) (c : String) (now : Int)
    (reqs : List Requirement) :
    ∀ (sales : List SaleRecord) (results : List (String × List String)) {s : SaleRecord},
      s ∈ sales → s ∈ (orderLoopPg pool c now reqs sales results).1 := by
  induction reqs with
  | nil => intro sales results s hs; exact hs
  | cons req rest ih =>
    intro sales results s hs
    rw [orderLoopPg_cons]
    split
    · exact ih _ _ hs
    · exact ih _ _ (List.mem_append_left _ hs)

/-- Every identifier in any per-requirement `found_numbers` list of the
Postgres loop has its sale row in the loop's final ledger. -/
theorem foundsPg_recorded (pool : List PoolRecord) (c : String) (now : Int)
    (reqs : List Requirement) :
    ∀ (sales : List SaleRecord) (results : List (String × List String))
      {f : List String}, f ∈ orderFoundsPg pool c now reqs sales →
      ∀ x ∈ f, mkSale x c now ∈ (orderLoopPg pool c now reqs sales results).1 := by
  induction reqs with
  | nil => intro _ _ f hf; cases hf
  | cons req rest ih =>
    intro sales results f hf x hx
    rw [orderLoopPg_cons]
    rcases List.mem_cons.mp hf with hhead | htail
    · have hne : anti_join_postgres pool sales req.provider
          (freshness_cutoff now) (reuse_cutoff now) req.qty ≠ [] := by
        intro h0
        rw [hhead, h0] at hx
        cases hx
      rw [if_neg hne]
      refine orderLoopPg_sales_mono pool c now rest _ _ ?_
      refine List.mem_append_right _ ?_
      exact List.mem_map_of_mem _ (hhead ▸ hx)
    · by_cases h0 : anti_join_postgres pool sales req.provider
          (freshness_cutoff now) (reuse_cutoff now) req.qty = []
      · rw [if_pos h0]
        exact ih _ _ (by simpa [h0] using htail) x hx
      · rw [if_neg h0]
        exact ih _ _ (by simpa [h0] using htail) x hx

/-! ## Trace lemmas for the sqlite loop (per-requirement found lists) -/

theorem orderFounds_cons (pool : List PoolRecord) (c : String) (now : Int)
    (req : Requirement) (rest : List Requirement) (sales : List SaleRecord) :
    orderFounds pool c now (req :: rest) sales =
      anti_join_sqlite pool sales req.provider
          (freshness_cutoff now) (reuse_cutoff now) req.qty ::
        orderFounds pool c now rest
          (if anti_join_sqlite pool sales req.provider
              (freshness_cutoff now) (reuse_cutoff now) req.qty = [] then sales
           else sales ++ (anti_join_sqlite pool sales req.provider
              (freshness_cutoff now) (reuse_cutoff now) req.qty).map
                (fun n => mkSale n c now)) := rfl

theorem salesAt_cons_succ (pool : List PoolRecord) (c : String) (now : Int)
    (req : Requirement) (rest : List Requirement) (sales : List SaleRecord) (k : Nat) :
    salesAt pool c now (req :: rest) sales (k + 1) =
      salesAt pool c now rest
        (if anti_join_sqlite pool sales req.provider
            (freshness_cutoff now) (reuse_cutoff now) req.qty = [] then sales
         else sales ++ (anti_join_sqlite pool sales req.provider
            (freshness_cutoff now) (reuse_cutoff now) req.qty).map
              (fun n => mkSale n c now)) k := rfl

theorem salesAt_nil (pool : List PoolRecord) (c : String) (now : Int)
    (sales : List SaleRecord) (k : Nat) :
    salesAt pool c now [] sales k = sales := by
  cases k <;> rfl

theorem mem_salesAt_of_mem (pool : List PoolRecord) (c : String) (now : Int)
    (reqs : List Requirement) :
    ∀ (sales : List SaleRecord) (k : Nat) {s : SaleRecord},
      s ∈ sales → s ∈ salesAt pool c now reqs sales k := by
  induction reqs with
  | nil => intro sales k s hs; rw [salesAt_nil]; exact hs
  | cons req rest ih =>
    intro sales k s hs
    cases k with
    | zero => exact hs
    | succ k =>
      rw [salesAt_cons_succ]
      refine ih _ k ?_
      split
      · exact hs
      · exact List.mem_append_left _ hs

theorem mem_salesAt_succ (pool : List PoolRecord) (c : String) (now : Int)
    (reqs : List Requirement) :
    ∀ (sales : List SaleRecord) (k : Nat) {s : SaleRecord},
      s ∈ salesAt pool c now reqs sales k → s ∈ salesAt pool c now reqs sales (k + 1) := by
  induction reqs with
  | nil => intro sales k s hs; rw [salesAt_nil] at hs ⊢; exact hs
  | cons req rest ih =>
    intro sales k s hs
    cases k with
    | zero =>
      rw [salesAt_cons_succ]
      refine mem_salesAt_of_mem pool c now rest _ 0 ?_
      split
      · exact hs
      · exact List.mem_append_left _ hs
    | succ k =>
      rw [salesAt_cons_succ] at hs ⊢
      exact ih _ k hs

theorem mem_salesAt_mono (pool : List PoolRecord) (c : String) (now : Int)
    (reqs : List Requirement) (sales : List SaleRecord) {k k' : Nat} (hkk : k ≤ k')
    {s : SaleRecord} (hs : s ∈ salesAt pool c now reqs sales k) :
    s ∈ salesAt pool c now reqs sales k' := by
  induction k' with
  | zero => rw [Nat.le_zero.mp hkk] at hs; exact hs
  | succ k' ih =>
    rcases Nat.lt_or_ge k (k' + 1) with hlt | hge
    · exact mem_salesAt_succ pool c now reqs sales k' (ih (Nat.lt_succ_iff.mp hlt))
    · rw [Nat.le_antisymm hkk hge] at hs; exact hs

/-- An identifier found for requirement `i` has its sale row in the ledger
from step `i + 1` on. -/
theorem orderFounds_get_sold (pool : List PoolRecord) (c : String) (now : Int)
    (reqs : List Requirement) :
    ∀ (sales : List SaleRecord) (i : Nat)
      (hi : i < (orderFounds pool c now reqs sales).length) {x : String},
      x ∈ (orderFounds pool c now reqs sales).get ⟨i, hi⟩ →
      mkSale x c now ∈ salesAt pool c now reqs sales (i + 1) := by
  induction reqs with
  | nil => intro sales i hi; cases hi
  | cons req rest ih =>
    intro sales i hi x hx
    cases i with
    | zero =>
      have hx0 : x ∈ anti_join_sqlite pool sales req.provider
          (freshness_cutoff now) (reuse_cutoff now) req.qty := hx
      have hne : anti_join_sqlite pool sales req.provider
          (freshness_cutoff now) (reuse_cutoff now) req.qty ≠ [] :=
        List.ne_nil_of_mem hx0
      rw [salesAt_cons_succ]
      refine mem_salesAt_of_mem pool c now rest _ 0 ?_
      rw [if_neg hne]
      exact List.mem_append_right _ (List.mem_map_of_mem _ hx0)
    | succ i =>
      rw [salesAt_cons_succ]
      exact ih _ i (Nat.lt_of_succ_lt_succ hi) hx

/-- Every identifier in the step-`j` found list was drawn from the anti-join
run against the step-`j` ledger (for that requirement's provider). -/
theorem orderFounds_get_from_antiJoin (pool : List PoolRecord) (c : String) (now : Int)
    (reqs : List Requirement) :
    ∀ (sales : List SaleRecord) (j : Nat)
      (hj : j < (orderFounds pool c now reqs sales).length) {x : String},
      x ∈ (orderFounds pool c now reqs sales).get ⟨j, hj⟩ →
      ∃ p : String, x ∈ antiJoin pool (salesAt pool c now reqs sales j) p
        (freshness_cutoff now) (reuse_cutoff now) := by
  induction reqs with
  | nil => intro sales j hj; cases hj
  | cons req rest ih =>
    intro sales j hj x hx
    cases j with
    | zero =>
      have hx0 : x ∈ anti_join_sqlite pool sales req.provider
          (freshness_cutoff now) (reuse_cutoff now) req.qty := hx
      refine ⟨req.provider, ?_⟩
      have hx1 : x ∈ candidate_pool pool sales req.provider
          (freshness_cutoff now) (reuse_cutoff now) :=
        List.take_sublist _ _ |>.mem hx0
      exact List.mem_dedup.mp hx1
    | succ j =>
      rw [salesAt_cons_succ]
      exact ih _ j (Nat.lt_of_succ_lt_succ hj) hx

/-! ## Partition manager lemmas -/

theorem ensureLoop_nil (base : Nat) (st : List String × List String) :
    ensureLoop base [] st = st := rfl

theorem ensureLoop_cons (base d : Nat) (days : List Nat) (st : List String × List String) :
    ensureLoop base (d :: days) st =
      ensureLoop base days
        (if partName (base + d) ∈ st.1 then st
         else (st.1 ++ [partName (base + d)], st.2 ++ [partName (base + d)])) := by
  simp only [ensureLoop, List.foldl_cons]

theorem ensureLoop_subset (base : Nat) (days : List Nat) (st : List String × List String) :
    st.1 ⊆ (ensureLoop base days st).1 := by
  induction days generalizing st with
  | nil => exact fun a h => h
  | cons d rest ih =>
    rw [ensureLoop_cons]
    intro a ha
    split
    · exact ih _ ha
    · exact ih _ (List.mem_append_left _ ha)

theorem ensureLoop_mem (base : Nat) (days : List Nat) (st : List String × List String) :
    ∀ d ∈ days, partName (base + d) ∈ (ensureLoop base days st).1 := by
  induction days generalizing st with
  | nil => intro d hd; cases hd
  | cons e rest ih =>
    intro d hd
    rw [ensureLoop_cons]
    rcases List.mem_cons.mp hd with h | h
    · subst h
      split
      · exact ensureLoop_subset base rest _ (by assumption)
      · exact ensureLoop_subset base rest _ (List.mem_append_right _ (List.mem_singleton_self _))
    · exact ih _ d h

theorem ensureLoop_noop (base : Nat) (days : List Nat) (st : List String × List String)
    (h : ∀ d ∈ days, partName (base + d) ∈ st.1) :
    ensureLoop base days st = st := by
  induction days with
  | nil => rfl
  | cons d rest ih =>
    rw [ensureLoop_cons, if_pos (h d (List.mem_cons_self d rest))]
    exact ih fun e he => h e (List.mem_cons_of_mem d he)

/-! ## Claim theorems (closed evaluations) -/

/-- C1: the model permits an interleaving of two order-processing calls in
which both calls select and successfully reserve the same identifier.  With a
single fresh unsold `tsel` identifier and two concurrent orders each asking
for one `tsel` number, both transactions' anti-join SELECTs (run before
either INSERT commits) return the same identifier, both record a sale for it,
and neither retries: the claimed mutual exclusion does not hold in the code,
which has no locking, no serializable isolation and no conditional
reservation between the SELECT and the INSERT. -/
theorem claim1_race_double_allocation :
    (race_two_orders pool_one_tsel [] "A" "B" ⟨"tsel", 1⟩ ⟨"tsel", 1⟩ 0).1 = ["0812a"] ∧
    (race_two_orders pool_one_tsel [] "A" "B" ⟨"tsel", 1⟩ ⟨"tsel", 1⟩ 0).2.1 = ["0812a"] ∧
    (race_two_orders pool_one_tsel [] "A" "B" ⟨"tsel", 1⟩ ⟨"tsel", 1⟩ 0).2.2 =
      [mkSale "0812a" "A" 0, mkSale "0812a" "B" 0] := by
  refine ⟨rfl, rfl, rfl⟩

/-- C2 counterexample: a failing order does not give the caller an
`OrderFailed` error with no partial `OrderResult`.  With one fresh `tsel`
identifier and a failure raised after the single requirement was processed
(e.g. at `conn.commit()`), `process_order_postgres` rolls the ledger back to
its initial state, swallows the exception in its `except` branch, and still
returns the partial results dict mapping `tsel` to the rolled-back
identifier. -/
theorem claim2_counterexample :
    process_order_postgres pool_one_tsel [] "A" [⟨"tsel", 1⟩] 0 (some 1) =
      ([], [("tsel", ["0812a"])]) ∧
    ([("tsel", ["0812a"])] : List (String × List String)) ≠ [] := by
  refine ⟨rfl, by decide⟩

/-- C5: the Postgres candidate query does not deduplicate.  With the same
identifier ingested twice (two fresh `raw_pool` rows) and one requirement for
two `tsel` numbers, `process_order_postgres` allocates the same identifier
twice in a single requirement and records two sales for it, while the sqlite
`process_order` (whose query has `GROUP BY r.phone_number`) allocates it only
once on the same input. -/
theorem claim5_postgres_duplicate_allocation :
    dictGet (process_order_postgres pool_dup_tsel [] "A" [⟨"tsel", 2⟩] 0 none).2 "tsel" =
      some ["0812a", "0812a"] ∧
    (process_order_postgres pool_dup_tsel [] "A" [⟨"tsel", 2⟩] 0 none).1 =
      [mkSale "0812a" "A" 0, mkSale "0812a" "A" 0] ∧
    dictGet (process_order pool_dup_tsel [] "A" [⟨"tsel", 2⟩] 0).2 "tsel" =
      some ["0812a"] := by
  refine ⟨rfl, rfl, rfl⟩

/-- C10 counterexample: with two same-provider requirements and a pool of one
fresh `tsel` identifier, the first requirement allocates the identifier, the
second requirement allocates nothing, and — because `results[provider]` is
only assigned when `found_numbers` is nonempty — the returned result still
maps `tsel` to the FIRST requirement's identifiers, not to the later (empty)
allocation.  So the result does not always map a duplicated provider to the
later requirement's identifiers. -/
theorem claim10_counterexample :
    orderFounds pool_one_tsel "A" 0 [⟨"tsel", 1⟩, ⟨"tsel", 1⟩] [] = [["0812a"], []] ∧
    dictGet (process_order pool_one_tsel [] "A" [⟨"tsel", 1⟩, ⟨"tsel", 1⟩] 0).2 "tsel" =
      some ["0812a"] ∧
    (["0812a"] : List String) ≠ [] := by
  refine ⟨rfl, rfl, by decide⟩

/-- C4: an identifier is a candidate for a provider at order time `now` iff it
has a `raw_pool` row of that provider imported at or after the freshness
cutoff (`now` minus 3 days) and no `sales_history` row at or after the reuse
cutoff (`now` minus 30 days).  The second conjunct states that the Postgres
candidate rows (the query without `GROUP BY`) select exactly the same set of
identifiers, so eligibility is the same in both implementations. -/
theorem claim4_eligibility_iff (pool : List PoolRecord) (sales : List SaleRecord)
    (prov x : String) (now : Int) :
    (x ∈ candidate_pool pool sales prov (freshness_cutoff now) (reuse_cutoff now) ↔
      (∃ r ∈ pool, r.phone_number = x ∧ r.provider = prov ∧
          freshness_cutoff now ≤ r.imported_at) ∧
        ¬ ∃ s ∈ sales, s.phone_number = x ∧ reuse_cutoff now ≤ s.sold_at) ∧
    (x ∈ antiJoin pool sales prov (freshness_cutoff now) (reuse_cutoff now) ↔
      x ∈ candidate_pool pool sales prov (freshness_cutoff now) (reuse_cutoff now)) :=
  ⟨mem_candidate_pool, by rw [mem_antiJoin, mem_candidate_pool]⟩

/-- C8: partition creation is idempotent.  Running `init_db_partitions` a
second time over the same day range leaves the partition set exactly as the
first run left it, and the second run creates no partition (each day's
existence check succeeds, so each `CREATE TABLE … PARTITION OF` is skipped). -/
theorem claim8_partition_idempotent (base : Nat) (parts : List String) :
    (init_db_partitions base (init_db_partitions base parts).1).1 =
      (init_db_partitions base parts).1 ∧
    (init_db_partitions base (init_db_partitions base parts).1).2 = [] := by
  have h : ∀ d ∈ List.range 4,
      partName (base + d) ∈ ((init_db_partitions base parts).1, ([] : List String)).1 :=
    fun d hd => ensureLoop_mem base (List.range 4) (parts, []) d hd
  have hnoop := ensureLoop_noop base (List.range 4) ((init_db_partitions base parts).1, []) h
  constructor
  · show (ensureLoop base (List.range 4) ((init_db_partitions base parts).1, [])).1 = _
    rw [hnoop]
  · show (ensureLoop base (List.range 4) ((init_db_partitions base parts).1, [])).2 = _
    rw [hnoop]

/-- C2 amended: an order's ledger effects are all-or-nothing — on any failure
the rollback removes every `SaleRecord` the order wrote (the ledger returned
is exactly the initial one, whichever step failed), and on success every
identifier of every requirement's `found_numbers` list has its sale row in
the committed ledger.  What the claim gets wrong is the caller-visible half:
the failing call returns the partial results dict accumulated before the
failure instead of an `OrderFailed` error (see the counterexample). -/
theorem claim2_amended (pool : List PoolRecord) (sales0 : List SaleRecord) (c : String)
    (reqs : List Requirement) (now : Int) :
    (∀ k : Nat, (process_order_postgres pool sales0 c reqs now (some k)).1 = sales0) ∧
    (∀ f ∈ orderFoundsPg pool c now reqs sales0, ∀ x ∈ f,
      mkSale x c now ∈ (process_order_postgres pool sales0 c reqs now none).1) :=
  ⟨fun _ => rfl, fun _ hf x hx => foundsPg_recorded pool c now reqs sales0 [] hf x hx⟩

/-- Witness for C2: with one fresh `tsel` identifier, the failing run keeps
the ledger empty, and the successful run commits the allocated sale. -/
theorem claim2_witness :
    (process_order_postgres pool_one_tsel [] "A" [⟨"tsel", 1⟩] 0 (some 0)).1 = [] ∧
    mkSale "0812a" "A" 0 ∈ (process_order_postgres pool_one_tsel [] "A" [⟨"tsel", 1⟩] 0 none).1 :=
  ⟨(claim2_amended pool_one_tsel [] "A" [⟨"tsel", 1⟩] 0).1 0,
   (claim2_amended pool_one_tsel [] "A" [⟨"tsel", 1⟩] 0).2 ["0812a"] (by decide) "0812a"
     (by decide)⟩

/-- C3 counterexample: the returned `OrderResult` does not carry the
requested count or a shortage flag.  Against a pool of exactly ten fresh
unsold `tsel` identifiers, an order requesting 15 returns *exactly* the same
value as an order requesting 10 — the first has a shortage (`found=10 <
requested=15`) and the second does not, yet the two results are
indistinguishable, so neither `requested` nor `shortage` (nor anything beyond
the allocated list) is part of the result. -/
theorem claim3_counterexample :
    process_order pool_ten_tsel [] "A" [⟨"tsel", 15⟩] 0 =
      process_order pool_ten_tsel [] "A" [⟨"tsel", 10⟩] 0 ∧
    (15 : Nat) ≠ 10 := by
  refine ⟨rfl, by decide⟩

/-- C3 amended: a requirement whose candidate set holds fewer identifiers
than requested does not fail or stop processing: the result maps the provider
to all candidates found (so the found count is the length of that list, less
than requested), every found identifier is recorded in the ledger, and any
subsequent requirements are processed from the post-reservation state.  But
the requested count and the shortage flag are not part of the returned
result (the shortage is only printed as a warning). -/
theorem claim3_shortage_soft (pool : List PoolRecord) (sales0 : List SaleRecord)
    (c prov : String) (qty : Nat) (now : Int)
    (h1 : candidate_pool pool sales0 prov (freshness_cutoff now) (reuse_cutoff now) ≠ [])
    (h2 : (candidate_pool pool sales0 prov (freshness_cutoff now) (reuse_cutoff now)).length
      < qty) :
    dictGet (process_order pool sales0 c [⟨prov, qty⟩] now).2 prov =
      some (candidate_pool pool sales0 prov (freshness_cutoff now) (reuse_cutoff now)) ∧
    (∀ x ∈ candidate_pool pool sales0 prov (freshness_cutoff now) (reuse_cutoff now),
      mkSale x c now ∈ (process_order pool sales0 c [⟨prov, qty⟩] now).1) ∧
    (∀ rest : List Requirement,
      process_order pool sales0 c (⟨prov, qty⟩ :: rest) now =
        orderLoop pool c now rest
          (sales0 ++ (candidate_pool pool sales0 prov (freshness_cutoff now)
            (reuse_cutoff now)).map (fun n => mkSale n c now))
          (dictInsert [] prov (candidate_pool pool sales0 prov (freshness_cutoff now)
            (reuse_cutoff now)))) := by
  have htake : anti_join_sqlite pool sales0 prov (freshness_cutoff now) (reuse_cutoff now) qty =
      candidate_pool pool sales0 prov (freshness_cutoff now) (reuse_cutoff now) :=
    List.take_of_length_le (le_of_lt h2)
  have hstep : ∀ rest : List Requirement,
      process_order pool sales0 c (⟨prov, qty⟩ :: rest) now =
        orderLoop pool c now rest
          (sales0 ++ (candidate_pool pool sales0 prov (freshness_cutoff now)
            (reuse_cutoff now)).map (fun n => mkSale n c now))
          (dictInsert [] prov (candidate_pool pool sales0 prov (freshness_cutoff now)
            (reuse_cutoff now))) := by
    intro rest
    rw [process_order, orderLoop_cons]
    simp only [htake]
    rw [if_neg h1]
  refine ⟨?_, ?_, hstep⟩
  · rw [hstep []]
    show dictGet (dictInsert [] prov _) prov = _
    rw [dictGet_dictInsert, if_pos rfl]
  · intro x hx
    rw [hstep []]
    show mkSale x c now ∈ (orderLoop pool c now [] _ _).1
    exact List.mem_append_right _ (List.mem_map_of_mem _ hx)

/-- Witness for C3 (the spec's own example, §8 "Shortage correctness"): ten
fresh unsold `tsel` identifiers, an order requesting 15: the result maps
`tsel` to all ten candidates and each of them is recorded in the ledger. -/
theorem claim3_witness :
    candidate_pool pool_ten_tsel [] "tsel" (freshness_cutoff 0) (reuse_cutoff 0) ≠ [] ∧
    (candidate_pool pool_ten_tsel [] "tsel" (freshness_cutoff 0) (reuse_cutoff 0)).length < 15 ∧
    dictGet (process_order pool_ten_tsel [] "A" [⟨"tsel", 15⟩] 0).2 "tsel" =
      some (candidate_pool pool_ten_tsel [] "tsel" (freshness_cutoff 0) (reuse_cutoff 0)) ∧
    mkSale "0812a0" "A" 0 ∈ (process_order pool_ten_tsel [] "A" [⟨"tsel", 15⟩] 0).1 :=
  ⟨by decide, by decide,
   (claim3_shortage_soft pool_ten_tsel [] "A" "tsel" 15 0 (by decide) (by decide)).1,
   (claim3_shortage_soft pool_ten_tsel [] "A" "tsel" 15 0 (by decide) (by decide)).2.1
     "0812a0" (by decide)⟩

/-- C9: a requirement that finds zero candidates is invisible.  Under the
hypothesis that the anti-join query for `req`, run against the ledger state
reached after the preceding requirements, finds nothing, the whole order
behaves exactly as if `req` had never been in the requirements list (same
final ledger, same results dict — in particular no ledger write for `req`),
and if no other requirement of the order names the same provider, the
provider key is absent from the returned dict. -/
theorem claim9_zero_candidates_invisible (pool : List PoolRecord) (sales0 : List SaleRecord)
    (c : String) (now : Int) (pre post : List Requirement) (req : Requirement)
    (h : anti_join_sqlite pool (process_order pool sales0 c pre now).1 req.provider
      (freshness_cutoff now) (reuse_cutoff now) req.qty = []) :
    process_order pool sales0 c (pre ++ req :: post) now =
      process_order pool sales0 c (pre ++ post) now ∧
    (req.provider ∉ (pre ++ post).map Requirement.provider →
      dictGet (process_order pool sales0 c (pre ++ req :: post) now).2 req.provider = none) := by
  have h' := h
  rw [process_order] at h'
  have hmain : process_order pool sales0 c (pre ++ req :: post) now =
      process_order pool sales0 c (pre ++ post) now := by
    rw [process_order, process_order, orderLoop_append, orderLoop_append, orderLoop_cons,
      if_pos h']
  refine ⟨hmain, fun hp => ?_⟩
  rw [hmain, process_order, dictGet_orderLoop_of_not_mem pool c now (pre ++ post) _ hp]
  rfl

/-- Witness for C9: a pool holding only an `isat` identifier; a `tsel`
requirement finds nothing, the order equals the order without it, and `tsel`
is absent from the result. -/
theorem claim9_witness :
    anti_join_sqlite [⟨"0857a", "isat", "u", 0, "f"⟩]
      (process_order [⟨"0857a", "isat", "u", 0, "f"⟩] [] "A" [] 0).1 "tsel"
      (freshness_cutoff 0) (reuse_cutoff 0) 1 = [] ∧
    process_order [⟨"0857a", "isat", "u", 0, "f"⟩] [] "A" [⟨"tsel", 1⟩] 0 =
      process_order [⟨"0857a", "isat", "u", 0, "f"⟩] [] "A" [] 0 ∧
    dictGet (process_order [⟨"0857a", "isat", "u", 0, "f"⟩] [] "A" [⟨"tsel", 1⟩] 0).2
      "tsel" = none := by
  have h := claim9_zero_candidates_invisible [⟨"0857a", "isat", "u", 0, "f"⟩] [] "A" 0 [] []
    ⟨"tsel", 1⟩ (by decide)
  exact ⟨by decide, h.1, h.2 (by decide)⟩

/-- C10 amended: when the later of two same-provider requirements allocates a
nonempty list, the returned dict maps the provider to exactly that later
list (the earlier requirement's entry is overwritten), while every sale row
recorded for the earlier requirements — the overwritten reservations included
— remains in the final ledger. -/
theorem claim10_overwrite (pool : List PoolRecord) (sales0 : List SaleRecord)
    (c : String) (now : Int) (pre : List Requirement) (r : Requirement)
    (hf : anti_join_sqlite pool (process_order pool sales0 c pre now).1 r.provider
      (freshness_cutoff now) (reuse_cutoff now) r.qty ≠ []) :
    dictGet (process_order pool sales0 c (pre ++ [r]) now).2 r.provider =
      some (anti_join_sqlite pool (process_order pool sales0 c pre now).1 r.provider
        (freshness_cutoff now) (reuse_cutoff now) r.qty) ∧
    ∀ s ∈ (process_order pool sales0 c pre now).1,
      s ∈ (process_order pool sales0 c (pre ++ [r]) now).1 := by
  have hf' := hf
  rw [process_order] at hf'
  constructor
  · rw [process_order, orderLoop_append, orderLoop_cons, if_neg hf']
    show dictGet (dictInsert _ _ _) _ = _
    rw [dictGet_dictInsert, if_pos rfl]
    rfl
  · intro s hs
    rw [process_order, orderLoop_append, orderLoop_cons, if_neg hf']
    exact List.mem_append_left _ hs

/-- Witness for C10: two fresh `tsel` identifiers, two `tsel` requirements of
one each: the result maps `tsel` to the second requirement's identifier only,
and the first requirement's sale row is still in the ledger. -/
theorem claim10_witness :
    anti_join_sqlite pool_two_tsel
      (process_order pool_two_tsel [] "A" [⟨"tsel", 1⟩] 0).1 "tsel"
      (freshness_cutoff 0) (reuse_cutoff 0) 1 ≠ [] ∧
    dictGet (process_order pool_two_tsel [] "A" ([⟨"tsel", 1⟩] ++ [⟨"tsel", 1⟩]) 0).2 "tsel" =
      some (anti_join_sqlite pool_two_tsel
        (process_order pool_two_tsel [] "A" [⟨"tsel", 1⟩] 0).1 "tsel"
        (freshness_cutoff 0) (reuse_cutoff 0) 1) ∧
    mkSale "0812a" "A" 0 ∈ (process_order pool_two_tsel [] "A"
      ([⟨"tsel", 1⟩] ++ [⟨"tsel", 1⟩]) 0).1 := by
  have h := claim10_overwrite pool_two_tsel [] "A" 0 [⟨"tsel", 1⟩] ⟨"tsel", 1⟩ (by decide)
  exact ⟨by decide, h.1, h.2 (mkSale "0812a" "A" 0) (by decide)⟩

/-- C6: requirements are processed in their given sequence (the trace
`orderFounds` lists the per-requirement allocations in order), and an
identifier allocated by requirement `i` is excluded from the candidate set of
every later requirement `j` of the same order — for any provider, since the
exclusion goes through the shared ledger — and hence is never allocated again
by requirement `j`: same-provider requirements of one order get disjoint
identifiers. -/
theorem claim6_sequential_exclusion (pool : List PoolRecord) (sales0 : List SaleRecord)
    (c : String) (now : Int) (reqs : List Requirement) (i j : Nat) (hij : i < j)
    (hi : i < (orderFounds pool c now reqs sales0).length)
    (hj : j < (orderFounds pool c now reqs sales0).length)
    (x : String) (hx : x ∈ (orderFounds pool c now reqs sales0).get ⟨i, hi⟩) :
    (∀ p : String, x ∉ candidate_pool pool (salesAt pool c now reqs sales0 j) p
      (freshness_cutoff now) (reuse_cutoff now)) ∧
    x ∉ (orderFounds pool c now reqs sales0).get ⟨j, hj⟩ := by
  have hsale : mkSale x c now ∈ salesAt pool c now reqs sales0 (i + 1) :=
    orderFounds_get_sold pool c now reqs sales0 i hi hx
  have hsale_j : mkSale x c now ∈ salesAt pool c now reqs sales0 j :=
    mem_salesAt_mono pool c now reqs sales0 hij hsale
  have hnot : ∀ p : String, x ∉ antiJoin pool (salesAt pool c now reqs sales0 j) p
      (freshness_cutoff now) (reuse_cutoff now) :=
    fun p => sold_now_not_mem_antiJoin hsale_j p (freshness_cutoff now)
  refine ⟨fun p hmem => hnot p (List.mem_dedup.mp hmem), fun hmem => ?_⟩
  obtain ⟨p, hp⟩ := orderFounds_get_from_antiJoin pool c now reqs sales0 j hj hmem
  exact hnot p hp

/-- Witness for C6: two fresh `tsel` identifiers and two same-provider
requirements; the identifier allocated by the first requirement is not
allocated by the second. -/
theorem claim6_witness :
    "0812a" ∈ (orderFounds pool_two_tsel "A" 0 [⟨"tsel", 1⟩, ⟨"tsel", 1⟩] []).get
      ⟨0, by decide⟩ ∧
    "0812a" ∉ (orderFounds pool_two_tsel "A" 0 [⟨"tsel", 1⟩, ⟨"tsel", 1⟩] []).get
      ⟨1, by decide⟩ :=
  ⟨by decide,
   (claim6_sequential_exclusion pool_two_tsel [] "A" 0 [⟨"tsel", 1⟩, ⟨"tsel", 1⟩] 0 1
     (by decide) (by decide) (by decide) "0812a" (by decide)).2⟩

/-! ## Two sequential runs of the same order (C7) -/

theorem soldSince_append (a b : List SaleRecord) (cutoff : Int) :
    soldSince (a ++ b) cutoff = soldSince a cutoff ++ soldSince b cutoff := by
  simp [soldSince, List.filter_append]

theorem soldSince_of_sales_now (f : List String) (c : String) (now : Int) :
    soldSince (f.map (fun n => mkSale n c now)) (reuse_cutoff now) = f := by
  have hall : ∀ s ∈ f.map (fun n => mkSale n c now),
      decide (reuse_cutoff now ≤ s.sold_at) = true := by
    intro s hs
    rcases List.mem_map.mp hs with ⟨n, -, rfl⟩
    simpa [mkSale] using reuse_cutoff_le now
  rw [soldSince, List.filter_eq_self.mpr hall, List.map_map]
  exact List.map_id f

/-- Selling the identifiers `f` (at instant `now`) shrinks the anti-join by
exactly the filter that removes the members of `f`. -/
theorem antiJoin_after_sale (pool : List PoolRecord) (sales0 : List SaleRecord)
    (prov c : String) (now fc : Int) (f : List String) :
    antiJoin pool (sales0 ++ f.map (fun n => mkSale n c now)) prov fc (reuse_cutoff now) =
      (antiJoin pool sales0 prov fc (reuse_cutoff now)).filter
        (fun p => decide (¬ p ∈ f)) := by
  rw [antiJoin, antiJoin, List.filter_filter]
  refine List.filter_congr ?_
  intro x hx
  rw [soldSince_append, soldSince_of_sales_now]
  simp [List.mem_append, not_or, Bool.and_comm]

theorem candidate_pool_after_sale_perm (pool : List PoolRecord) (sales0 : List SaleRecord)
    (prov c : String) (now fc : Int) (f : List String) :
    (candidate_pool pool (sales0 ++ f.map (fun n => mkSale n c now)) prov fc
        (reuse_cutoff now)).Perm
      ((candidate_pool pool sales0 prov fc (reuse_cutoff now)).filter
        (fun p => decide (¬ p ∈ f))) := by
  refine (List.perm_ext_iff_of_nodup (List.nodup_dedup _)
    ((List.nodup_dedup _).filter _)).mpr ?_
  intro a
  simp only [candidate_pool, antiJoin_after_sale, List.mem_dedup, List.mem_filter]

/-- Filtering a duplicate-free list by "not a member of `f`" drops at most
`f.length` elements. -/
theorem length_filter_not_mem_ge (D f : List String) (hD : D.Nodup) :
    D.length - f.length ≤ (D.filter (fun p => decide (¬ p ∈ f))).length := by
  have hperm := List.filter_append_perm (fun p => decide (¬ p ∈ f)) D
  have hlen : (D.filter (fun p => decide (¬ p ∈ f))).length +
      (D.filter (fun p => !decide (¬ p ∈ f))).length = D.length := by
    simpa [List.length_append] using hperm.length_eq
  have hsub : (D.filter (fun p => !decide (¬ p ∈ f))).length ≤ f.length := by
    refine List.Subperm.length_le (List.subperm_of_subset (hD.filter _) ?_)
    intro a ha
    have hmem := List.mem_filter.mp ha
    simpa using hmem.2
  omega

/-- A single-requirement order that finds something commits exactly its found
list, and maps the provider to it. -/
theorem process_order_single (pool : List PoolRecord) (sales0 : List SaleRecord)
    (c prov : String) (now : Int) (q : Nat)
    (hne : anti_join_sqlite pool sales0 prov (freshness_cutoff now) (reuse_cutoff now) q ≠ []) :
    process_order pool sales0 c [⟨prov, q⟩] now =
      (sales0 ++ (anti_join_sqlite pool sales0 prov (freshness_cutoff now)
          (reuse_cutoff now) q).map (fun n => mkSale n c now),
        [(prov, anti_join_sqlite pool sales0 prov (freshness_cutoff now)
          (reuse_cutoff now) q)]) := by
  rw [process_order, orderLoop_cons, if_neg hne]
  rfl

/-- Running the same single-provider order twice in sequence, against a
candidate pool of at least `2 * q` identifiers, allocates two duplicate-free
`q`-element lists with no identifier in common. -/
theorem reorder_disjoint (pool : List PoolRecord) (sales0 : List SaleRecord)
    (c1 c2 prov : String) (now : Int) (q : Nat) (hq : 0 < q)
    (h2q : 2 * q ≤ (candidate_pool pool sales0 prov (freshness_cutoff now)
      (reuse_cutoff now)).length) :
    ∃ f1 f2 : List String,
      dictGet (process_order pool sales0 c1 [⟨prov, q⟩] now).2 prov = some f1 ∧
      dictGet (process_order pool (process_order pool sales0 c1 [⟨prov, q⟩] now).1 c2
        [⟨prov, q⟩] now).2 prov = some f2 ∧
      f1.length = q ∧ f2.length = q ∧ f1.Nodup ∧ f2.Nodup ∧ ∀ x ∈ f1, x ∉ f2 := by
  have hqD : q ≤ (candidate_pool pool sales0 prov (freshness_cutoff now)
      (reuse_cutoff now)).length := le_trans (Nat.le_mul_of_pos_left q (by norm_num)) h2q
  set D := candidate_pool pool sales0 prov (freshness_cutoff now) (reuse_cutoff now) with hD
  set f1 := anti_join_sqlite pool sales0 prov (freshness_cutoff now) (reuse_cutoff now) q
    with hf1
  have hlen1 : f1.length = q := by
    rw [hf1, anti_join_sqlite, List.length_take, ← hD]
    exact Nat.min_eq_left hqD
  have hne1 : f1 ≠ [] := List.ne_nil_of_length_pos (by omega)
  have hrun1 := process_order_single pool sales0 c1 prov now q hne1
  have hsales1 : (process_order pool sales0 c1 [⟨prov, q⟩] now).1 =
      sales0 ++ f1.map (fun n => mkSale n c1 now) := by rw [hrun1]
  have hperm : (candidate_pool pool (sales0 ++ f1.map (fun n => mkSale n c1 now)) prov
      (freshness_cutoff now) (reuse_cutoff now)).Perm
      (D.filter (fun p => decide (¬ p ∈ f1))) :=
    candidate_pool_after_sale_perm pool sales0 prov c1 now (freshness_cutoff now) f1
  have hlenD2 : q ≤ (candidate_pool pool (sales0 ++ f1.map (fun n => mkSale n c1 now)) prov
      (freshness_cutoff now) (reuse_cutoff now)).length := by
    rw [hperm.length_eq]
    have := length_filter_not_mem_ge D f1 (List.nodup_dedup _)
    omega
  set f2 := anti_join_sqlite pool (sales0 ++ f1.map (fun n => mkSale n c1 now)) prov
    (freshness_cutoff now) (reuse_cutoff now) q with hf2
  have hlen2 : f2.length = q := by
    rw [hf2, anti_join_sqlite, List.length_take]
    exact Nat.min_eq_left hlenD2
  have hne2 : f2 ≠ [] := List.ne_nil_of_length_pos (by omega)
  have hrun2 := process_order_single pool (sales0 ++ f1.map (fun n => mkSale n c1 now)) c2
    prov now q hne2
  refine ⟨f1, f2, ?_, ?_, hlen1, hlen2, ?_, ?_, ?_⟩
  · rw [hrun1]
    simp [dictGet]
  · rw [hsales1, hrun2]
    simp [dictGet]
  · exact (List.take_sublist _ _).nodup (List.nodup_dedup _)
  · exact (List.take_sublist _ _).nodup (List.nodup_dedup _)
  · intro x hx1 hx2
    have hx2' : x ∈ candidate_pool pool (sales0 ++ f1.map (fun n => mkSale n c1 now)) prov
        (freshness_cutoff now) (reuse_cutoff now) := (List.take_sublist _ _).mem hx2
    have hx2f : x ∈ D.filter (fun p => decide (¬ p ∈ f1)) := hperm.mem_iff.mp hx2'
    have := (List.mem_filter.mp hx2f).2
    simp only [decide_eq_true_eq] at this
    exact this hx1

/-- C7: against any pool state offering at least 10000 fresh unsold `tsel`
identifiers, running the order `[{tsel, 5000}]` twice back-to-back (the
second call starting from the ledger the first call committed) yields two
duplicate-free allocations of exactly 5000 identifiers each that share no
identifier. -/
theorem claim7_reorder_disjoint (pool : List PoolRecord) (sales0 : List SaleRecord)
    (c1 c2 : String) (now : Int)
    (h : 10000 ≤ (candidate_pool pool sales0 "tsel" (freshness_cutoff now)
      (reuse_cutoff now)).length) :
    ∃ f1 f2 : List String,
      dictGet (process_order pool sales0 c1 [⟨"tsel", 5000⟩] now).2 "tsel" = some f1 ∧
      dictGet (process_order pool (process_order pool sales0 c1 [⟨"tsel", 5000⟩] now).1 c2
        [⟨"tsel", 5000⟩] now).2 "tsel" = some f2 ∧
      f1.length = 5000 ∧ f2.length = 5000 ∧ f1.Nodup ∧ f2.Nodup ∧ ∀ x ∈ f1, x ∉ f2 :=
  reorder_disjoint pool sales0 c1 c2 "tsel" now 5000 (by norm_num) (by omega)

/-- Distinct phone strings for the C7 witness pool. -/
def bigPhone (i : Nat) : String := String.mk (List.replicate i 'a')

theorem bigPhone_injective : Function.Injective bigPhone := by
  intro i j h
  have h2 : List.replicate i 'a' = List.replicate j 'a' := congrArg String.data h
  simpa using congrArg List.length h2

/-- A pool of 10000 distinct fresh `tsel` identifiers. -/
def big_pool : List PoolRecord :=
  (List.range 10000).map (fun i => ⟨bigPhone i, "tsel", "u", 0, "f"⟩)

theorem big_pool_candidates :
    candidate_pool big_pool [] "tsel" (freshness_cutoff 0) (reuse_cutoff 0) =
      (List.range 10000).map bigPhone := by
  have h1 : List.filter (fun r => decide (r.provider = "tsel") &&
      decide (freshness_cutoff 0 ≤ r.imported_at)) big_pool = big_pool := by
    refine List.filter_eq_self.mpr ?_
    intro r hr
    rcases List.mem_map.mp hr with ⟨i, -, rfl⟩
    simp [freshness_cutoff, secondsPerDay]
  have h2 : big_pool.map (fun r => r.phone_number) = (List.range 10000).map bigPhone := by
    rw [big_pool, List.map_map]
    rfl
  have h4 : List.filter (fun p => decide (¬ p ∈ soldSince [] (reuse_cutoff 0)))
      ((List.range 10000).map bigPhone) = (List.range 10000).map bigPhone := by
    refine List.filter_eq_self.mpr ?_
    intro a _
    simp [soldSince]
  rw [candidate_pool, antiJoin, freshPoolIds, h1, h2, h4]
  exact List.dedup_eq_self.mpr ((List.nodup_range 10000).map bigPhone_injective)

/-- Witness for C7: the 10000-identifier pool `big_pool` satisfies the
hypothesis, so the two sequential 5000-identifier runs are disjoint. -/
theorem claim7_witness :
    10000 ≤ (candidate_pool big_pool [] "tsel" (freshness_cutoff 0)
      (reuse_cutoff 0)).length ∧
    ∃ f1 f2 : List String,
      dictGet (process_order big_pool [] "A" [⟨"tsel", 5000⟩] 0).2 "tsel" = some f1 ∧
      dictGet (process_order big_pool (process_order big_pool [] "A"
        [⟨"tsel", 5000⟩] 0).1 "B" [⟨"tsel", 5000⟩] 0).2 "tsel" = some f2 ∧
      f1.length = 5000 ∧ f2.length = 5000 ∧ f1.Nodup ∧ f2.Nodup ∧ ∀ x ∈ f1, x ∉ f2 :=
  have h : 10000 ≤ (candidate_pool big_pool [] "tsel" (freshness_cutoff 0)
      (reuse_cutoff 0)).length := by
    rw [big_pool_candidates]
    simp
  ⟨h, claim7_reorder_disjoint big_pool [] "A" "B" 0 h⟩

end Voucher

